import Mathlib

/-!
Verification of the block-editor document model of this repository.

The subject is the rich-content block editor: its JSON document codec
(`blocksToJson` / `jsonToBlocks` in `src/components/block-editor/types.ts`),
the document-editor operations (`addBlockAfter`, `deleteBlock`,
`convertBlock` in the same file), the video URL classifier
(`parseVideoUrl` / `handleUrlSubmit` in the VideoBlock component), the
table column operations (`addColumn` / `deleteColumn` in TableBlock), the
quiz scorer (`getScore` in QuizBlock), and the renderer's HTML injection
points (BlockRenderer).

The persisted form is JSON text produced by `JSON.stringify` and read by
`JSON.parse`.  Those two are modelled here by an executable renderer and
parser over an explicit `Json` value type.  Modelling choices: JSON
numbers are integers (every number the editor stores - timestamps,
dimensions, points - is an integer); strings are Lean `String`s
(lists of unicode scalars); object key order is the construction order of
the source's object literals.  The parser accepts a superset of strict
JSON on exotic inputs (leading zeros, raw control characters in strings);
every theorem conditioned on the parser's result is unaffected by that.
-/

/-- A JSON value, the runtime shape of everything `JSON.parse` returns and
`JSON.stringify` consumes.  Persisted documents, and the unvalidated arrays
`jsonToBlocks` hands back to its callers, live at this type. -/
inductive Json where
  | null
  | bool (b : Bool)
  | num (n : Int)
  | str (s : String)
  | arr (elems : List Json)
  | obj (fields : List (String × Json))

/-- JSON string-body escaping of one character, as `JSON.stringify` emits it
for the characters the editor's documents contain. -/
def escChar (c : Char) : List Char :=
  if c = '\"' then ['\\', '\"']
  else if c = '\\' then ['\\', '\\']
  else if c = '\n' then ['\\', 'n']
  else if c = '\t' then ['\\', 't']
  else if c = '\r' then ['\\', 'r']
  else [c]

/-- JSON string-body escaping of a whole string. -/
def escStr : List Char → List Char
  | [] => []
  | c :: cs => escChar c ++ escStr cs

/-- The decimal digit character of `d` (for `d < 10`). -/
def digitChar (d : Nat) : Char := Char.ofNat (48 + d)

/-- Decimal digits of a natural number, fuelled (fuel `n + 1` suffices). -/
def natCharsAux : Nat → Nat → List Char → List Char
  | 0, _, acc => acc
  | fuel + 1, n, acc =>
    if n < 10 then digitChar n :: acc
    else natCharsAux fuel (n / 10) (digitChar (n % 10) :: acc)

/-- Decimal digits of a natural number, most significant first. -/
def natChars (n : Nat) : List Char := natCharsAux (n + 1) n []

/-- Decimal rendering of an integer, as `JSON.stringify` prints the
integer-valued numbers of a document. -/
def intChars : Int → List Char
  | .ofNat n => natChars n
  | .negSucc m => '-' :: natChars (m + 1)

mutual

/-- `JSON.stringify` on a JSON value (no whitespace, like the source's
`JSON.stringify(blocks)` call). -/
def render : Json → List Char
  | .null => "null".data
  | .bool true => "true".data
  | .bool false => "false".data
  | .num n => intChars n
  | .str s => '\"' :: escStr s.data ++ ['\"']
  | .arr xs => '[' :: renderElems xs ++ [']']
  | .obj kvs => '\x7b' :: renderMembers kvs ++ ['\x7d']

/-- Comma-separated rendering of an array's elements. -/
def renderElems : List Json → List Char
  | [] => []
  | [x] => render x
  | x :: y :: xs => render x ++ ',' :: renderElems (y :: xs)

/-- Comma-separated rendering of an object's members. -/
def renderMembers : List (String × Json) → List Char
  | [] => []
  | [(k, v)] => '\"' :: escStr k.data ++ '\"' :: ':' :: render v
  | (k, v) :: kv :: kvs =>
    '\"' :: escStr k.data ++ '\"' :: ':' :: render v ++ ',' :: renderMembers (kv :: kvs)

end

/-- JSON whitespace. -/
def isWs (c : Char) : Bool := c = ' ' || c = '\n' || c = '\t' || c = '\r'

/-- Skip leading JSON whitespace. -/
def skipWs : List Char → List Char
  | [] => []
  | c :: cs => if isWs c then skipWs cs else c :: cs

/-- The character an escape sequence `\\c` stands for, when `c` is one of
the short escapes. -/
def unescChar (c : Char) : Option Char :=
  if c = '\"' then some '\"'
  else if c = '\\' then some '\\'
  else if c = '/' then some '/'
  else if c = 'n' then some '\n'
  else if c = 't' then some '\t'
  else if c = 'r' then some '\r'
  else if c = 'b' then some (Char.ofNat 8)
  else if c = 'f' then some (Char.ofNat 12)
  else none

/-- Parse the body of a JSON string after its opening quote, up to and
including the closing quote; returns the decoded body and the rest. -/
def parseStrBody : List Char → Option (List Char × List Char)
  | [] => none
  | '\"' :: rest => some ([], rest)
  | '\\' :: rest =>
    match rest with
    | [] => none
    | c :: rest' =>
      match unescChar c with
      | some d => (parseStrBody rest').map (fun p => (d :: p.1, p.2))
      | none => none
  | c :: rest => (parseStrBody rest).map (fun p => (c :: p.1, p.2))

/-- Value of a list of decimal digit characters. -/
def digitsToNat (ds : List Char) : Nat :=
  ds.foldl (fun a c => a * 10 + (c.toNat - 48)) 0

/-- Parse a nonempty run of decimal digits. -/
def parseNum (cs : List Char) : Option (Nat × List Char) :=
  let ds := cs.takeWhile (·.isDigit)
  if ds.isEmpty then none else some (digitsToNat ds, cs.dropWhile (·.isDigit))

mutual

/-- Parse one JSON value (fuelled recursive-descent model of `JSON.parse`). -/
def parseVal : Nat → List Char → Option (Json × List Char)
  | 0, _ => none
  | f + 1, cs =>
    match skipWs cs with
    | [] => none
    | c :: rest =>
      if c.isDigit then
        match parseNum (c :: rest) with
        | some (n, r) => some (.num (n : Int), r)
        | none => none
      else if c = '-' then
        match parseNum rest with
        | some (n, r) => some (.num (-(n : Int)), r)
        | none => none
      else if c = '\"' then
        match parseStrBody rest with
        | some (s, r) => some (.str (String.mk s), r)
        | none => none
      else if c = '[' then
        let cs1 := skipWs rest
        if cs1.head? == some ']' then some (.arr [], cs1.tail)
        else
          match parseElems f cs1 with
          | some (xs, r) => some (.arr xs, r)
          | none => none
      else if c = '\x7b' then
        let cs1 := skipWs rest
        if cs1.head? == some '\x7d' then some (.obj [], cs1.tail)
        else
          match parseMembers f cs1 with
          | some (kvs, r) => some (.obj kvs, r)
          | none => none
      else if c = 'n' then
        match rest with
        | 'u' :: 'l' :: 'l' :: r => some (.null, r)
        | _ => none
      else if c = 't' then
        match rest with
        | 'r' :: 'u' :: 'e' :: r => some (.bool true, r)
        | _ => none
      else if c = 'f' then
        match rest with
        | 'a' :: 'l' :: 's' :: 'e' :: r => some (.bool false, r)
        | _ => none
      else none

/-- Parse the elements of a nonempty JSON array, consuming the closing
bracket. -/
def parseElems : Nat → List Char → Option (List Json × List Char)
  | 0, _ => none
  | f + 1, cs =>
    match parseVal f cs with
    | none => none
    | some (v, rest) =>
      match skipWs rest with
      | ',' :: rest2 =>
        (match parseElems f rest2 with
         | some (xs, r) => some (v :: xs, r)
         | none => none)
      | ']' :: rest2 => some ([v], rest2)
      | _ => none

/-- Parse the members of a nonempty JSON object, consuming the closing
brace. -/
def parseMembers : Nat → List Char → Option (List (String × Json) × List Char)
  | 0, _ => none
  | f + 1, cs =>
    match skipWs cs with
    | '\"' :: rest =>
      (match parseStrBody rest with
       | some (k, rest1) =>
         (match skipWs rest1 with
          | ':' :: rest2 =>
            (match parseVal f rest2 with
             | some (v, rest3) =>
               (match skipWs rest3 with
                | ',' :: rest4 =>
                  (match parseMembers f rest4 with
                   | some (kvs, r) => some ((String.mk k, v) :: kvs, r)
                   | none => none)
                | '\x7d' :: rest4 => some ([(String.mk k, v)], rest4)
                | _ => none)
             | none => none)
          | _ => none)
       | none => none)
    | _ => none

end

/-- The model of `JSON.parse`: parse a whole string to a JSON value,
requiring only trailing whitespace after the value.  `none` models the
exception `JSON.parse` throws on malformed input. -/
def parseJson (s : String) : Option Json :=
  match parseVal (s.length + 1) s.data with
  | some (j, rest) => if skipWs rest = [] then some j else none
  | none => none

mutual

/-- Structural size of a JSON value, a lower bound for the parser fuel it
needs (payloads of atoms count 1). -/
def jsize : Json → Nat
  | .null => 1
  | .bool _ => 1
  | .num _ => 1
  | .str _ => 1
  | .arr xs => 1 + jsizeL xs
  | .obj kvs => 1 + jsizeM kvs

/-- Structural size of an array's elements. -/
def jsizeL : List Json → Nat
  | [] => 0
  | x :: xs => 1 + jsize x + jsizeL xs

/-- Structural size of an object's members. -/
def jsizeM : List (String × Json) → Nat
  | [] => 0
  | kv :: kvs => 1 + jsize kv.2 + jsizeM kvs

end

/-! ### Round-trip lemmas: the parser inverts the renderer -/

theorem isWs_eq_false_of_isDigit (c : Char) (h : c.isDigit = true) : isWs c = false := by
  by_contra hw
  have hw' : isWs c = true := by revert hw; cases isWs c <;> simp
  have hc : ((c = ' ' ∨ c = '\n') ∨ c = '\t') ∨ c = '\r' := by simpa [isWs] using hw'
  rcases hc with ((rfl | rfl) | rfl) | rfl <;> exact absurd h (by decide)

theorem skipWs_cons_of_not_ws (c : Char) (cs : List Char) (h : isWs c = false) :
    skipWs (c :: cs) = c :: cs := by
  simp [skipWs, h]

theorem takeWhile_dropWhile_append (p : Char → Bool) (l r : List Char)
    (hl : ∀ c ∈ l, p c = true) (hr : ∀ c, r.head? = some c → p c = false) :
    (l ++ r).takeWhile p = l ∧ (l ++ r).dropWhile p = r := by
  induction l with
  | nil =>
    cases r with
    | nil => simp
    | cons a r' =>
      have := hr a rfl
      simp [List.takeWhile, List.dropWhile, this]
  | cons a l' ih =>
    have ha := hl a (by simp)
    have hrec := ih (fun c hc => hl c (by simp [hc]))
    simp [List.takeWhile, List.dropWhile, ha, hrec.1, hrec.2]

theorem parseStrBody_escStr : ∀ (s : List Char) (rest : List Char),
    parseStrBody (escStr s ++ '\"' :: rest) = some (s, rest) := by
  intro s
  induction s with
  | nil => intro rest; rfl
  | cons c cs ih =>
    intro rest
    by_cases h1 : c = '\"'
    · subst h1
      simp [escStr, escChar, parseStrBody, unescChar, ih rest]
    · by_cases h2 : c = '\\'
      · subst h2
        simp [escStr, escChar, parseStrBody, unescChar, ih rest]
      · by_cases h3 : c = '\n'
        · subst h3
          simp [escStr, escChar, parseStrBody, unescChar, ih rest]
        · by_cases h4 : c = '\t'
          · subst h4
            simp [escStr, escChar, parseStrBody, unescChar, ih rest]
          · by_cases h5 : c = '\r'
            · subst h5
              simp [escStr, escChar, parseStrBody, unescChar, ih rest]
            · simp [escStr, escChar, h1, h2, h3, h4, h5, parseStrBody, ih rest]

theorem natCharsAux_append (fuel : Nat) : ∀ (n : Nat) (acc : List Char), n < fuel →
    natCharsAux fuel n acc = natCharsAux fuel n [] ++ acc := by
  induction fuel with
  | zero => intro n acc h; exact absurd h (Nat.not_lt_zero n)
  | succ f ih =>
    intro n acc h
    by_cases h10 : n < 10
    · simp [natCharsAux, h10]
    · have hdiv : n / 10 < f := by omega
      simp only [natCharsAux, h10, if_false]
      rw [ih (n / 10) _ hdiv, ih (n / 10) [digitChar (n % 10)] hdiv]
      simp

theorem natCharsAux_fuel : ∀ (n fuel fuel' : Nat), n < fuel → n < fuel' →
    natCharsAux fuel n [] = natCharsAux fuel' n [] := by
  intro n
  induction n using Nat.strong_induction_on with
  | _ n ih =>
    intro fuel fuel' h h'
    obtain ⟨f, rfl⟩ : ∃ f, fuel = f + 1 := ⟨fuel - 1, by omega⟩
    obtain ⟨g, rfl⟩ : ∃ g, fuel' = g + 1 := ⟨fuel' - 1, by omega⟩
    by_cases h10 : n < 10
    · simp [natCharsAux, h10]
    · have hd : n / 10 < n := by omega
      simp only [natCharsAux, h10, if_false]
      rw [natCharsAux_append f (n / 10) _ (by omega),
          natCharsAux_append g (n / 10) _ (by omega),
          ih (n / 10) hd f g (by omega) (by omega)]

theorem natChars_lt_ten (n : Nat) (h : n < 10) : natChars n = [digitChar n] := by
  simp [natChars, natCharsAux, h]

theorem natChars_ge_ten (n : Nat) (h : ¬ n < 10) :
    natChars n = natChars (n / 10) ++ [digitChar (n % 10)] := by
  unfold natChars
  simp only [natCharsAux, h, if_false]
  rw [natCharsAux_append n (n / 10) _ (by omega),
      natCharsAux_fuel (n / 10) n (n / 10 + 1) (by omega) (by omega)]
  conv_lhs => rw [natCharsAux]

theorem digitChar_isDigit (d : Nat) (h : d < 10) : (digitChar d).isDigit = true := by
  have : ∀ e, e < 10 → (digitChar e).isDigit = true := by decide
  exact this d h

theorem digitChar_toNat (d : Nat) (h : d < 10) : (digitChar d).toNat = 48 + d := by
  have : ∀ e, e < 10 → (digitChar e).toNat = 48 + e := by decide
  exact this d h

theorem natChars_ne_nil_all_digits (n : Nat) :
    natChars n ≠ [] ∧ ∀ c ∈ natChars n, c.isDigit = true := by
  induction n using Nat.strong_induction_on with
  | _ n ih =>
    by_cases h10 : n < 10
    · rw [natChars_lt_ten n h10]
      refine ⟨by simp, ?_⟩
      intro c hc
      simp at hc
      subst hc
      exact digitChar_isDigit n h10
    · rw [natChars_ge_ten n h10]
      have hd : n / 10 < n := by omega
      refine ⟨by simp [(ih (n / 10) hd).1], ?_⟩
      intro c hc
      rcases List.mem_append.mp hc with hc' | hc'
      · exact (ih (n / 10) hd).2 c hc'
      · simp at hc'
        subst hc'
        exact digitChar_isDigit (n % 10) (by omega)

theorem digitsToNat_natChars (n : Nat) : digitsToNat (natChars n) = n := by
  induction n using Nat.strong_induction_on with
  | _ n ih =>
    by_cases h10 : n < 10
    · rw [natChars_lt_ten n h10]
      simp [digitsToNat, digitChar_toNat n h10]
    · rw [natChars_ge_ten n h10]
      have hd : n / 10 < n := by omega
      have hrec := ih (n / 10) hd
      simp only [digitsToNat, List.foldl_append] at *
      simp [hrec, digitChar_toNat (n % 10) (by omega)]
      omega

theorem parseNum_natChars (n : Nat) (rest : List Char)
    (hr : ∀ c, rest.head? = some c → c.isDigit = false) :
    parseNum (natChars n ++ rest) = some (n, rest) := by
  obtain ⟨hne, hall⟩ := natChars_ne_nil_all_digits n
  obtain ⟨htake, hdrop⟩ := takeWhile_dropWhile_append (·.isDigit) (natChars n) rest hall hr
  simp only [parseNum, htake, hdrop]
  rw [if_neg (by simpa [List.isEmpty_iff] using hne)]
  rw [digitsToNat_natChars]

/-- The rest of the input does not begin with a decimal digit (so a number
token before it cannot absorb part of it). -/
def noDigitHead (rest : List Char) : Prop :=
  ∀ c, rest.head? = some c → c.isDigit = false

theorem noDigitHead_nil : noDigitHead [] := by
  intro c h
  simp at h

theorem noDigitHead_cons (c : Char) (t : List Char) (h : c.isDigit = false) :
    noDigitHead (c :: t) := by
  intro d hd
  simp at hd
  subst hd
  exact h

theorem natChars_cons (n : Nat) :
    ∃ c cs, natChars n = c :: cs ∧ c.isDigit = true := by
  obtain ⟨hne, hall⟩ := natChars_ne_nil_all_digits n
  cases hnc : natChars n with
  | nil => exact absurd hnc hne
  | cons c cs => exact ⟨c, cs, rfl, hall c (by rw [hnc]; simp)⟩

theorem jsize_pos (j : Json) : 1 ≤ jsize j := by
  cases j <;> simp [jsize]

theorem renderElems_eq_cons (x : Json) (xs : List Json) :
    ∃ t, renderElems (x :: xs) = render x ++ t := by
  cases xs with
  | nil => exact ⟨[], by simp [renderElems]⟩
  | cons y ys => exact ⟨',' :: renderElems (y :: ys), rfl⟩

/-- The first character a rendered value may start with: never whitespace
and never a closing bracket or brace. -/
abbrev startOk (c : Char) : Prop := isWs c = false ∧ c ≠ ']' ∧ c ≠ '\x7d'

theorem startOk_of_isDigit (c : Char) (hdig : c.isDigit = true) : startOk c := by
  refine ⟨isWs_eq_false_of_isDigit c hdig, ?_, ?_⟩
  all_goals rintro rfl
  all_goals exact absurd hdig (by decide)

theorem render_head (j : Json) : ∃ c cs, render j = c :: cs ∧ startOk c := by
  rcases j with _ | b | n | s | xs | kvs
  · exact ⟨'n', _, rfl, by decide⟩
  · rcases b with _ | _
    exacts [⟨'f', _, rfl, by decide⟩, ⟨'t', _, rfl, by decide⟩]
  · rcases n with m | m
    · obtain ⟨c, cs, hc, hdig⟩ := natChars_cons m
      have hren : render (Json.num (Int.ofNat m)) = c :: cs := by
        simpa [render, intChars] using hc
      exact ⟨c, cs, hren, startOk_of_isDigit c hdig⟩
    · exact ⟨'-', _, rfl, by decide⟩
  · exact ⟨'\"', _, rfl, by decide⟩
  · exact ⟨'[', _, rfl, by decide⟩
  · exact ⟨'\x7b', _, rfl, by decide⟩

theorem parseVal_digit_head (f : Nat) (c : Char) (cs : List Char) (h : c.isDigit = true) :
    parseVal (f + 1) (c :: cs) =
      match parseNum (c :: cs) with
      | some (n, r) => some (.num (n : Int), r)
      | none => none := by
  have hw := isWs_eq_false_of_isDigit c h
  simp [parseVal, skipWs, hw, h]

theorem cons_headq_beq_false (c d : Char) (t : List Char) (h : c ≠ d) :
    (((c :: t).head?) == some d) = false := by
  have : (c == d) = false := beq_eq_false_iff_ne.mpr h
  simpa [List.head?] using this



theorem skipWs_colon (t : List Char) : skipWs (':' :: t) = ':' :: t := rfl

theorem skipWs_comma (t : List Char) : skipWs (',' :: t) = ',' :: t := rfl

theorem skipWs_rbrace (t : List Char) : skipWs ('\x7d' :: t) = '\x7d' :: t := rfl

theorem parseVal_dash (f : Nat) (cs : List Char) :
    parseVal (f + 1) ('-' :: cs) =
      match parseNum cs with
      | some (n, r) => some (Json.num (-(n : Int)), r)
      | none => none := rfl

theorem parseVal_quote (f : Nat) (cs : List Char) :
    parseVal (f + 1) ('\"' :: cs) =
      match parseStrBody cs with
      | some (s, r) => some (Json.str (String.mk s), r)
      | none => none := rfl

theorem parseVal_lbracket (f : Nat) (cs : List Char) :
    parseVal (f + 1) ('[' :: cs) =
      (if (skipWs cs).head? == some ']' then some (Json.arr [], (skipWs cs).tail)
       else
         match parseElems f (skipWs cs) with
         | some (xs, r) => some (Json.arr xs, r)
         | none => none) := rfl

theorem parseVal_lbrace (f : Nat) (cs : List Char) :
    parseVal (f + 1) ('\x7b' :: cs) =
      (if (skipWs cs).head? == some '\x7d' then some (Json.obj [], (skipWs cs).tail)
       else
         match parseMembers f (skipWs cs) with
         | some (kvs, r) => some (Json.obj kvs, r)
         | none => none) := rfl

theorem parseElems_step (f : Nat) (cs : List Char) :
    parseElems (f + 1) cs =
      match parseVal f cs with
      | none => none
      | some (v, rest) =>
        match skipWs rest with
        | ',' :: rest2 =>
          (match parseElems f rest2 with
           | some (xs, r) => some (v :: xs, r)
           | none => none)
        | ']' :: rest2 => some ([v], rest2)
        | _ => none := rfl

theorem parseMembers_quote (f : Nat) (t : List Char) :
    parseMembers (f + 1) ('\"' :: t) =
      match parseStrBody t with
      | some (k, rest1) =>
        (match skipWs rest1 with
         | ':' :: rest2 =>
           (match parseVal f rest2 with
            | some (v, rest3) =>
              (match skipWs rest3 with
               | ',' :: rest4 =>
                 (match parseMembers f rest4 with
                  | some (kvs, r) => some ((String.mk k, v) :: kvs, r)
                  | none => none)
               | '\x7d' :: rest4 => some ([(String.mk k, v)], rest4)
               | _ => none)
            | none => none)
         | _ => none)
      | none => none := rfl

theorem parse_render_all : ∀ fuel : Nat,
    (∀ (j : Json) (rest : List Char), jsize j < fuel → noDigitHead rest →
       parseVal fuel (render j ++ rest) = some (j, rest)) ∧
    (∀ (xs : List Json) (rest : List Char), xs ≠ [] → jsizeL xs < fuel →
       parseElems fuel (renderElems xs ++ ']' :: rest) = some (xs, rest)) ∧
    (∀ (kvs : List (String × Json)) (rest : List Char), kvs ≠ [] → jsizeM kvs < fuel →
       parseMembers fuel (renderMembers kvs ++ '\x7d' :: rest) = some (kvs, rest)) := by
  intro fuel
  induction fuel using Nat.strong_induction_on with
  | _ fuel ih =>
    refine ⟨?_, ?_, ?_⟩
    · intro j rest hsz hnd
      obtain ⟨f, rfl⟩ : ∃ f, fuel = f + 1 :=
        ⟨fuel - 1, by have := jsize_pos j; omega⟩
      cases j with
      | null => rfl
      | bool b => cases b <;> rfl
      | num n =>
        cases n with
        | ofNat m =>
          obtain ⟨c, cs, hc, hdig⟩ := natChars_cons m
          have hr : render (Json.num (Int.ofNat m)) = natChars m := by
            simp [render, intChars]
          rw [hr, hc, List.cons_append, parseVal_digit_head f c (cs ++ rest) hdig,
              ← List.cons_append, ← hc, parseNum_natChars m rest hnd]
          rfl
        | negSucc m =>
          have hr : render (Json.num (Int.negSucc m)) = '-' :: natChars (m + 1) := by
            simp [render, intChars]
          rw [hr, List.cons_append, parseVal_dash, parseNum_natChars (m + 1) rest hnd]
          rfl
      | str s =>
        have hr : render (Json.str s) ++ rest = '\"' :: (escStr s.data ++ '\"' :: rest) := by
          simp [render]
        rw [hr, parseVal_quote, parseStrBody_escStr s.data rest]
      | arr xs =>
        have hr : render (Json.arr xs) ++ rest = '[' :: (renderElems xs ++ ']' :: rest) := by
          simp [render]
        rw [hr]
        cases xs with
        | nil => rfl
        | cons x xs' =>
          rw [parseVal_lbracket]
          obtain ⟨t, ht⟩ := renderElems_eq_cons x xs'
          obtain ⟨c, cs, hc, hw, hrb, _⟩ := render_head x
          have hshape : renderElems (x :: xs') ++ ']' :: rest = c :: (cs ++ (t ++ ']' :: rest)) := by
            rw [ht, hc]
            simp
          have hsz' : jsizeL (x :: xs') < f := by
            simp [jsize] at hsz
            omega
          rw [hshape, skipWs_cons_of_not_ws c _ hw, cons_headq_beq_false c ']' _ hrb]
          simp only [Bool.false_eq_true, if_false]
          rw [← hshape, (ih f (by omega)).2.1 (x :: xs') rest (by simp) hsz']
      | obj kvs =>
        have hr : render (Json.obj kvs) ++ rest = '\x7b' :: (renderMembers kvs ++ '\x7d' :: rest) := by
          simp [render]
        rw [hr]
        cases kvs with
        | nil => rfl
        | cons kv kvs' =>
          rw [parseVal_lbrace]
          obtain ⟨k, v⟩ := kv
          have hshape : ∃ t, renderMembers ((k, v) :: kvs') ++ '\x7d' :: rest = '\"' :: t := by
            cases kvs' with
            | nil =>
              exact ⟨escStr k.data ++ '\"' :: ':' :: (render v ++ '\x7d' :: rest),
                by simp [renderMembers]⟩
            | cons kv2 kvs2 =>
              exact ⟨escStr k.data ++ '\"' :: ':' ::
                  (render v ++ ',' :: (renderMembers (kv2 :: kvs2) ++ '\x7d' :: rest)),
                by simp [renderMembers]⟩
          obtain ⟨t, ht⟩ := hshape
          have hsz' : jsizeM ((k, v) :: kvs') < f := by
            simp [jsize] at hsz
            omega
          rw [ht, skipWs_cons_of_not_ws '\"' _ (by decide),
              cons_headq_beq_false '\"' '\x7d' _ (by decide)]
          simp only [Bool.false_eq_true, if_false]
          rw [← ht, (ih f (by omega)).2.2 ((k, v) :: kvs') rest (by simp) hsz']
    · intro xs rest hne hsz
      obtain ⟨x, xs', rfl⟩ : ∃ y ys, xs = y :: ys := by
        cases xs with
        | nil => exact absurd rfl hne
        | cons a as => exact ⟨a, as, rfl⟩
      obtain ⟨f, rfl⟩ : ∃ f, fuel = f + 1 := by
        refine ⟨fuel - 1, ?_⟩
        have := jsize_pos x
        simp [jsizeL] at hsz
        omega
      have hszx : jsize x < f := by
        have := jsize_pos x
        simp [jsizeL] at hsz
        omega
      cases xs' with
      | nil =>
        have hr : renderElems [x] ++ ']' :: rest = render x ++ ']' :: rest := by
          simp [renderElems]
        have hV := (ih f (by omega)).1 x (']' :: rest) hszx
          (noDigitHead_cons ']' rest (by decide))
        rw [parseElems_step, hr, hV]
        rfl
      | cons y ys =>
        have hr : renderElems (x :: y :: ys) ++ ']' :: rest =
            render x ++ ',' :: (renderElems (y :: ys) ++ ']' :: rest) := by
          simp [renderElems]
        have hszl : jsizeL (y :: ys) < f := by
          have := jsize_pos x
          simp [jsizeL] at hsz ⊢
          omega
        have hV := (ih f (by omega)).1 x (',' :: (renderElems (y :: ys) ++ ']' :: rest)) hszx
          (noDigitHead_cons ',' _ (by decide))
        have hE := (ih f (by omega)).2.1 (y :: ys) rest (by simp) hszl
        rw [parseElems_step, hr]
        simp only [hV, hE, skipWs_comma]
    · intro kvs rest hne hsz
      obtain ⟨k, v, kvs', rfl⟩ : ∃ k v ms, kvs = (k, v) :: ms := by
        cases kvs with
        | nil => exact absurd rfl hne
        | cons kv ms => exact ⟨kv.1, kv.2, ms, by simp⟩
      obtain ⟨f, rfl⟩ : ∃ f, fuel = f + 1 := by
        refine ⟨fuel - 1, ?_⟩
        have := jsize_pos v
        simp [jsizeM] at hsz
        omega
      have hszv : jsize v < f := by
        have := jsize_pos v
        simp [jsizeM] at hsz
        omega
      cases kvs' with
      | nil =>
        have hr : renderMembers [(k, v)] ++ '\x7d' :: rest =
            '\"' :: (escStr k.data ++ '\"' :: (':' :: (render v ++ '\x7d' :: rest))) := by
          simp [renderMembers]
        have hV := (ih f (by omega)).1 v ('\x7d' :: rest) hszv
          (noDigitHead_cons '\x7d' _ (by decide))
        rw [hr, parseMembers_quote]
        simp only [parseStrBody_escStr k.data, skipWs_colon, hV, skipWs_rbrace]
      | cons kv2 kvs2 =>
        have hr : renderMembers ((k, v) :: kv2 :: kvs2) ++ '\x7d' :: rest =
            '\"' :: (escStr k.data ++ '\"' ::
              (':' :: (render v ++ ',' :: (renderMembers (kv2 :: kvs2) ++ '\x7d' :: rest)))) := by
          simp [renderMembers]
        have hszm : jsizeM (kv2 :: kvs2) < f := by
          have := jsize_pos v
          simp [jsizeM] at hsz ⊢
          omega
        have hV := (ih f (by omega)).1 v
          (',' :: (renderMembers (kv2 :: kvs2) ++ '\x7d' :: rest)) hszv
          (noDigitHead_cons ',' _ (by decide))
        have hM := (ih f (by omega)).2.2 (kv2 :: kvs2) rest (by simp) hszm
        rw [hr, parseMembers_quote]
        simp only [parseStrBody_escStr k.data, skipWs_colon, hV, skipWs_comma, hM]

theorem render_len : ∀ n : Nat,
    (∀ j : Json, jsize j ≤ n → jsize j ≤ (render j).length) ∧
    (∀ xs : List Json, xs ≠ [] → jsizeL xs ≤ n → jsizeL xs ≤ (renderElems xs).length + 1) ∧
    (∀ kvs : List (String × Json), kvs ≠ [] → jsizeM kvs ≤ n →
       jsizeM kvs ≤ (renderMembers kvs).length + 1) := by
  intro n
  induction n using Nat.strong_induction_on with
  | _ n ih =>
    refine ⟨?_, ?_, ?_⟩
    · intro j hsz
      cases j with
      | null => decide
      | bool b => cases b <;> decide
      | num m =>
        cases m with
        | ofNat a =>
          obtain ⟨c, cs, hc, _⟩ := natChars_cons a
          have : render (Json.num (Int.ofNat a)) = natChars a := by simp [render, intChars]
          rw [this, hc]
          simp [jsize]
        | negSucc a =>
          have : render (Json.num (Int.negSucc a)) = '-' :: natChars (a + 1) := by
            simp [render, intChars]
          rw [this]
          simp [jsize]
      | str s =>
        have : render (Json.str s) = '\"' :: escStr s.data ++ ['\"'] := by simp [render]
        rw [this]
        simp [jsize]
      | arr xs =>
        cases xs with
        | nil => decide
        | cons x xs' =>
          have hre : render (Json.arr (x :: xs')) = '[' :: renderElems (x :: xs') ++ [']'] := by
            simp [render]
          have h1 : 1 ≤ n := le_trans (jsize_pos _) hsz
          have hszl : jsizeL (x :: xs') ≤ n - 1 := by
            simp [jsize] at hsz
            omega
          have := (ih (n - 1) (by omega)).2.1 (x :: xs') (by simp) hszl
          rw [hre]
          simp [jsize] at *
          omega
      | obj kvs =>
        cases kvs with
        | nil => decide
        | cons kv kvs' =>
          have hre : render (Json.obj (kv :: kvs')) =
              '\x7b' :: renderMembers (kv :: kvs') ++ ['\x7d'] := by
            simp [render]
          have h1 : 1 ≤ n := le_trans (jsize_pos _) hsz
          have hszm : jsizeM (kv :: kvs') ≤ n - 1 := by
            simp [jsize] at hsz
            omega
          have := (ih (n - 1) (by omega)).2.2 (kv :: kvs') (by simp) hszm
          rw [hre]
          simp [jsize] at *
          omega
    · intro xs hne hsz
      obtain ⟨x, xs', rfl⟩ : ∃ y ys, xs = y :: ys := by
        cases xs with
        | nil => exact absurd rfl hne
        | cons a as => exact ⟨a, as, rfl⟩
      have hp := jsize_pos x
      have h1 : 1 ≤ n := by
        simp [jsizeL] at hsz
        omega
      have hx : jsize x ≤ n - 1 := by
        simp [jsizeL] at hsz
        omega
      have hvx := (ih (n - 1) (by omega)).1 x hx
      cases xs' with
      | nil =>
        have : renderElems [x] = render x := by simp [renderElems]
        rw [this]
        simp [jsizeL]
        omega
      | cons y ys =>
        have hre : renderElems (x :: y :: ys) = render x ++ ',' :: renderElems (y :: ys) := by
          simp [renderElems]
        have hyp : 1 ≤ jsizeL (y :: ys) := by
          have := jsize_pos y
          simp [jsizeL]
          omega
        have hys : jsizeL (y :: ys) ≤ n - 1 := by
          simp [jsizeL] at hsz ⊢
          omega
        have hls := (ih (n - 1) (by omega)).2.1 (y :: ys) (by simp) hys
        rw [hre]
        simp [jsizeL] at *
        omega
    · intro kvs hne hsz
      obtain ⟨k, v, kvs', rfl⟩ : ∃ k v ms, kvs = (k, v) :: ms := by
        cases kvs with
        | nil => exact absurd rfl hne
        | cons kv ms => exact ⟨kv.1, kv.2, ms, by simp⟩
      have hp := jsize_pos v
      have h1 : 1 ≤ n := by
        simp [jsizeM] at hsz
        omega
      have hv : jsize v ≤ n - 1 := by
        simp [jsizeM] at hsz
        omega
      have hvv := (ih (n - 1) (by omega)).1 v hv
      cases kvs' with
      | nil =>
        have : renderMembers [(k, v)] = '\"' :: escStr k.data ++ '\"' :: ':' :: render v := by
          simp [renderMembers]
        rw [this]
        simp [jsizeM]
        omega
      | cons kv2 kvs2 =>
        have hre : renderMembers ((k, v) :: kv2 :: kvs2) =
            '\"' :: escStr k.data ++ '\"' :: ':' :: render v ++
              ',' :: renderMembers (kv2 :: kvs2) := by
          simp [renderMembers]
        have hms : jsizeM (kv2 :: kvs2) ≤ n - 1 := by
          simp [jsizeM] at hsz ⊢
          omega
        have hls := (ih (n - 1) (by omega)).2.2 (kv2 :: kvs2) (by simp) hms
        rw [hre]
        simp [jsizeM] at *
        omega

theorem jsize_le_render_length (j : Json) : jsize j ≤ (render j).length :=
  (render_len (jsize j)).1 j le_rfl

theorem parseJson_render (j : Json) : parseJson (String.mk (render j)) = some j := by
  have h := (parse_render_all ((render j).length + 1)).1 j []
    (by have := jsize_le_render_length j; omega) noDigitHead_nil
  rw [List.append_nil] at h
  show (match parseVal ((render j).length + 1) (render j) with
        | some (jv, rest) => if skipWs rest = [] then some jv else none
        | none => none) = some j
  rw [h]
  rfl

/-! ### Block schema (`src/components/block-editor/types.ts`, lines 1-116) -/

/-- The closed set of block type tags (`BlockType`, types.ts lines 2-13). -/
inductive BlockType where
  | text
  | heading1
  | heading2
  | heading3
  | image
  | video
  | code
  | divider
  | quote
  | quiz
  | table
deriving DecidableEq

/-- The JSON string of a block type tag. -/
def blockTypeStr : BlockType → String
  | .text => "text"
  | .heading1 => "heading1"
  | .heading2 => "heading2"
  | .heading3 => "heading3"
  | .image => "image"
  | .video => "video"
  | .code => "code"
  | .divider => "divider"
  | .quote => "quote"
  | .quiz => "quiz"
  | .table => "table"

/-- `TextAlignment` (types.ts line 15). -/
inductive TextAlignment where
  | left
  | center
  | right
  | justify
deriving DecidableEq

def textAlignmentStr : TextAlignment → String
  | .left => "left"
  | .center => "center"
  | .right => "right"
  | .justify => "justify"

/-- `ListType` (types.ts line 16). -/
inductive ListType where
  | none
  | bullet
  | numbered
  | checklist
deriving DecidableEq

def listTypeStr : ListType → String
  | .none => "none"
  | .bullet => "bullet"
  | .numbered => "numbered"
  | .checklist => "checklist"

/-- `ImageSize` (types.ts line 17). -/
inductive ImageSize where
  | small
  | medium
  | large
  | full
deriving DecidableEq

def imageSizeStr : ImageSize → String
  | .small => "small"
  | .medium => "medium"
  | .large => "large"
  | .full => "full"

/-- `BorderRadius` (types.ts line 18). -/
inductive BorderRadius where
  | none
  | small
  | medium
  | large
  | full
deriving DecidableEq

def borderRadiusStr : BorderRadius → String
  | .none => "none"
  | .small => "small"
  | .medium => "medium"
  | .large => "large"
  | .full => "full"

/-- Video platform tags (types.ts line 50). -/
inductive VideoPlatform where
  | youtube
  | vimeo
  | loom
  | other
deriving DecidableEq

def videoPlatformStr : VideoPlatform → String
  | .youtube => "youtube"
  | .vimeo => "vimeo"
  | .loom => "loom"
  | .other => "other"

/-- Aspect ratio tags `16:9 | 4:3 | 1:1` (types.ts line 51). -/
inductive AspectRatio where
  | r169
  | r43
  | r11
deriving DecidableEq

def aspectRatioStr : AspectRatio → String
  | .r169 => "16:9"
  | .r43 => "4:3"
  | .r11 => "1:1"

/-- Code block themes (types.ts line 61). -/
inductive CodeTheme where
  | light
  | dark
deriving DecidableEq

def codeThemeStr : CodeTheme → String
  | .light => "light"
  | .dark => "dark"

/-- Table border styles (types.ts line 98). -/
inductive BorderStyle where
  | none
  | solid
  | dashed
deriving DecidableEq

def borderStyleStr : BorderStyle → String
  | .none => "none"
  | .solid => "solid"
  | .dashed => "dashed"

/-- Quiz question kinds (types.ts line 73). -/
inductive QuestionType where
  | multipleChoice
  | trueFalse
  | shortAnswer
deriving DecidableEq

def questionTypeStr : QuestionType → String
  | .multipleChoice => "multiple-choice"
  | .trueFalse => "true-false"
  | .shortAnswer => "short-answer"

/-- `TextMetadata` (types.ts lines 31-35); optional fields are `Option`. -/
structure TextMetadata where
  alignment : Option TextAlignment
  listType : Option ListType
  checked : Option Bool
deriving DecidableEq

/-- `ImageMetadata` (types.ts lines 37-46). -/
structure ImageMetadata where
  src : String
  alt : Option String
  caption : Option String
  size : Option ImageSize
  alignment : Option TextAlignment
  borderRadius : Option BorderRadius
  width : Option Int
  height : Option Int
deriving DecidableEq

/-- `VideoMetadata` (types.ts lines 48-55). -/
structure VideoMetadata where
  url : String
  platform : Option VideoPlatform
  aspectRatio : Option AspectRatio
  autoplay : Option Bool
  startTime : Option Int
  endTime : Option Int
deriving DecidableEq

/-- `CodeMetadata` (types.ts lines 57-62). -/
structure CodeMetadata where
  language : String
  filename : Option String
  showLineNumbers : Option Bool
  theme : Option CodeTheme
deriving DecidableEq

/-- `QuizOption` (types.ts lines 64-68). -/
structure QuizOption where
  id : String
  text : String
  isCorrect : Bool
deriving DecidableEq

/-- `QuizQuestion` (types.ts lines 70-78). -/
structure QuizQuestion where
  id : String
  question : String
  type : QuestionType
  options : Option (List QuizOption)
  correctAnswer : Option String
  explanation : Option String
  points : Option Int
deriving DecidableEq

/-- `QuizMetadata` (types.ts lines 80-84). -/
structure QuizMetadata where
  questions : List QuizQuestion
  showResults : Option Bool
  randomizeOptions : Option Bool
deriving DecidableEq

/-- `TableCell` (types.ts lines 86-92). -/
structure TableCell where
  content : String
  rowSpan : Option Int
  colSpan : Option Int
  backgroundColor : Option String
  alignment : Option TextAlignment
deriving DecidableEq

/-- `TableMetadata` (types.ts lines 94-99). -/
structure TableMetadata where
  rows : List (List TableCell)
  hasHeader : Option Bool
  alternatingColors : Option Bool
  borderStyle : Option BorderStyle
deriving DecidableEq

/-- `BlockMetadata`, the union of the per-type metadata shapes
(types.ts lines 101-107). -/
inductive BlockMetadata where
  | text (m : TextMetadata)
  | image (m : ImageMetadata)
  | video (m : VideoMetadata)
  | code (m : CodeMetadata)
  | quiz (m : QuizMetadata)
  | table (m : TableMetadata)
deriving DecidableEq

/-- `ContentBlock` (types.ts lines 109-116). -/
structure ContentBlock where
  id : String
  type : BlockType
  content : String
  metadata : Option BlockMetadata
  createdAt : Int
  updatedAt : Int
deriving DecidableEq

/-! ### The runtime JSON form of a block (what `JSON.stringify` sees) -/

/-- One optional object member: present exactly when the field is set
(`JSON.stringify` omits `undefined`-valued fields). -/
def optField (k : String) : Option Json → List (String × Json)
  | some j => [(k, j)]
  | none => []

def textMetadataToJson (m : TextMetadata) : Json :=
  .obj (optField "alignment" (m.alignment.map (fun a => .str (textAlignmentStr a))) ++
        optField "listType" (m.listType.map (fun l => .str (listTypeStr l))) ++
        optField "checked" (m.checked.map .bool))

def imageMetadataToJson (m : ImageMetadata) : Json :=
  .obj (("src", .str m.src) ::
        (optField "alt" (m.alt.map .str) ++
         optField "caption" (m.caption.map .str) ++
         optField "size" (m.size.map (fun s => .str (imageSizeStr s))) ++
         optField "alignment" (m.alignment.map (fun a => .str (textAlignmentStr a))) ++
         optField "borderRadius" (m.borderRadius.map (fun r => .str (borderRadiusStr r))) ++
         optField "width" (m.width.map .num) ++
         optField "height" (m.height.map .num)))

def videoMetadataToJson (m : VideoMetadata) : Json :=
  .obj (("url", .str m.url) ::
        (optField "platform" (m.platform.map (fun p => .str (videoPlatformStr p))) ++
         optField "aspectRatio" (m.aspectRatio.map (fun r => .str (aspectRatioStr r))) ++
         optField "autoplay" (m.autoplay.map .bool) ++
         optField "startTime" (m.startTime.map .num) ++
         optField "endTime" (m.endTime.map .num)))

def codeMetadataToJson (m : CodeMetadata) : Json :=
  .obj (("language", .str m.language) ::
        (optField "filename" (m.filename.map .str) ++
         optField "showLineNumbers" (m.showLineNumbers.map .bool) ++
         optField "theme" (m.theme.map (fun t => .str (codeThemeStr t)))))

def quizOptionToJson (o : QuizOption) : Json :=
  .obj [("id", .str o.id), ("text", .str o.text), ("isCorrect", .bool o.isCorrect)]

def quizQuestionToJson (q : QuizQuestion) : Json :=
  .obj (("id", .str q.id) :: ("question", .str q.question) ::
        ("type", .str (questionTypeStr q.type)) ::
        (optField "options" (q.options.map (fun os => .arr (os.map quizOptionToJson))) ++
         optField "correctAnswer" (q.correctAnswer.map .str) ++
         optField "explanation" (q.explanation.map .str) ++
         optField "points" (q.points.map .num)))

def quizMetadataToJson (m : QuizMetadata) : Json :=
  .obj (("questions", .arr (m.questions.map quizQuestionToJson)) ::
        (optField "showResults" (m.showResults.map .bool) ++
         optField "randomizeOptions" (m.randomizeOptions.map .bool)))

def tableCellToJson (c : TableCell) : Json :=
  .obj (("content", .str c.content) ::
        (optField "rowSpan" (c.rowSpan.map .num) ++
         optField "colSpan" (c.colSpan.map .num) ++
         optField "backgroundColor" (c.backgroundColor.map .str) ++
         optField "alignment" (c.alignment.map (fun a => .str (textAlignmentStr a)))))

def tableMetadataToJson (m : TableMetadata) : Json :=
  .obj (("rows", .arr (m.rows.map (fun r => .arr (r.map tableCellToJson)))) ::
        (optField "hasHeader" (m.hasHeader.map .bool) ++
         optField "alternatingColors" (m.alternatingColors.map .bool) ++
         optField "borderStyle" (m.borderStyle.map (fun s => .str (borderStyleStr s)))))

def metadataToJson : BlockMetadata → Json
  | .text m => textMetadataToJson m
  | .image m => imageMetadataToJson m
  | .video m => videoMetadataToJson m
  | .code m => codeMetadataToJson m
  | .quiz m => quizMetadataToJson m
  | .table m => tableMetadataToJson m

/-- The runtime JSON object of a `ContentBlock`; keys in the construction
order of `createBlock`'s object literal (types.ts lines 169-176). -/
def blockToJson (b : ContentBlock) : Json :=
  .obj (("id", .str b.id) :: ("type", .str (blockTypeStr b.type)) ::
        ("content", .str b.content) ::
        (optField "metadata" (b.metadata.map metadataToJson) ++
         [("createdAt", .num b.createdAt), ("updatedAt", .num b.updatedAt)]))

/-! ### Block factory and document codec (types.ts lines 124-207) -/

/-- The nondeterministic environment of `createBlock`: the value
`crypto.randomUUID()` returns and the value `Date.now()` returns. -/
structure Fresh where
  id : String
  now : Int
deriving DecidableEq

/-- `getDefaultMetadata` (types.ts lines 125-166). -/
def getDefaultMetadata : BlockType → Option BlockMetadata
  | .quiz => some (.quiz ⟨[], some false, some false⟩)
  | .table => some (.table
      ⟨[[⟨"Header 1", none, none, none, none⟩,
         ⟨"Header 2", none, none, none, none⟩,
         ⟨"Header 3", none, none, none, none⟩],
        [⟨"", none, none, none, none⟩, ⟨"", none, none, none, none⟩,
         ⟨"", none, none, none, none⟩],
        [⟨"", none, none, none, none⟩, ⟨"", none, none, none, none⟩,
         ⟨"", none, none, none, none⟩]],
       some true, some true, some .solid⟩)
  | .code => some (.code ⟨"javascript", none, some true, some .dark⟩)
  | .image => some (.image ⟨"", none, none, some .large, some .center, some .medium, none, none⟩)
  | .video => some (.video ⟨"", some .youtube, some .r169, none, none, none⟩)
  | _ => none

/-- `createBlock` (types.ts lines 169-176): fresh id, current timestamps,
supplied metadata or the per-type default. -/
def createBlock (fresh : Fresh) (ty : BlockType) (content : String)
    (metadata : Option BlockMetadata) : ContentBlock :=
  { id := fresh.id
    type := ty
    content := content
    metadata := match metadata with
                | some m => some m
                | none => getDefaultMetadata ty
    createdAt := fresh.now
    updatedAt := fresh.now }

/-- `getDefaultBlocks` (types.ts lines 179-181): one empty text block. -/
def getDefaultBlocks (fresh : Fresh) : List ContentBlock :=
  [createBlock fresh .text "" none]

/-- `blocksToJson` (types.ts lines 184-186): `JSON.stringify(blocks)`. -/
def blocksToJson (blocks : List ContentBlock) : String :=
  String.mk (render (.arr (blocks.map blockToJson)))

/-- `jsonToBlocks` (types.ts lines 189-199): `JSON.parse` inside try/catch;
a parsed array is returned as-is (unvalidated, hence `List Json`), anything
else - parse failure included - yields the default document. -/
def jsonToBlocks (fresh : Fresh) (json : String) : List Json :=
  match parseJson json with
  | some (.arr parsed) => parsed
  | some _ => (getDefaultBlocks fresh).map blockToJson
  | none => (getDefaultBlocks fresh).map blockToJson

/-- Whether `JSON.parse` succeeds on `s` with an array result - the guard
`Array.isArray(parsed)` of `jsonToBlocks`. -/
def parsesToArray (s : String) : Bool :=
  match parseJson s with
  | some (.arr _) => true
  | _ => false

/-! ### Document editor operations (types.ts, `BlockEditor` component) -/

/-- The orchestrator's state: the ordered block list plus the selected and
focused block ids (types.ts lines 294-296). -/
structure EditorState where
  blocks : List ContentBlock
  selectedBlockId : Option String
  focusedBlockId : Option String
deriving DecidableEq

/-- JavaScript `Array.prototype.findIndex`: the first matching index, `-1`
when there is none. -/
def jsFindIndex (p : ContentBlock → Bool) (l : List ContentBlock) : Int :=
  match l.findIdx? p with
  | some i => (i : Int)
  | none => -1

/-- `addBlockAfter` (types.ts lines 332-343): splice a fresh default block
after `findIndex`'s result - which is `-1` when the anchor id is absent, so
`slice(0, 0) ++ [newBlock] ++ slice(0)` prepends the new block.  The new
block becomes both focused and selected. -/
def addBlockAfter (st : EditorState) (afterBlockId : String) (ty : BlockType)
    (fresh : Fresh) : EditorState :=
  let index := jsFindIndex (fun b => b.id == afterBlockId) st.blocks
  let newBlock := createBlock fresh ty "" none
  let newBlocks := st.blocks.take (index + 1).toNat ++ [newBlock] ++
    st.blocks.drop (index + 1).toNat
  { blocks := newBlocks
    selectedBlockId := some newBlock.id
    focusedBlockId := some newBlock.id }

/-- `deleteBlock` (types.ts lines 346-366): a sole block is cleared instead
of removed; otherwise the block is filtered out and focus moves to the
preceding block (or the first remaining one). -/
def deleteBlock (st : EditorState) (blockId : String) : EditorState :=
  if st.blocks.length ≤ 1 then
    { st with blocks := st.blocks.map (fun b =>
        if b.id == blockId then { b with content := "" } else b) }
  else
    let index := jsFindIndex (fun b => b.id == blockId) st.blocks
    let newBlocks := st.blocks.filter (fun b => b.id != blockId)
    { st with
      blocks := newBlocks
      focusedBlockId :=
        if 0 < index then (newBlocks[(index - 1).toNat]?).map (·.id)
        else if 0 < newBlocks.length then (newBlocks[0]?).map (·.id)
        else st.focusedBlockId }

/-- `convertBlock` (types.ts lines 405-412): rewrite the matching block's
`type` and stamp `updatedAt` with `Date.now()` (the `now` argument). -/
def convertBlock (st : EditorState) (blockId : String) (newType : BlockType)
    (now : Int) : EditorState :=
  { st with blocks := st.blocks.map (fun b =>
      if b.id == blockId then { b with type := newType, updatedAt := now } else b) }

/-! ### Video URL classification (`VideoBlock`, src/unnamed/part_005) -/

/-- The character class `[a-zA-Z0-9_-]` of the YouTube id pattern. -/
def isIdChar (c : Char) : Bool := c.isAlphanum || c = '_' || c = '-'

def ytWatchPat : List Char := "youtube.com/watch?v=".data

def ytEmbedPat : List Char := "youtube.com/embed/".data

def ytShortPat : List Char := "youtu.be/".data

def vimeoPat : List Char := "vimeo.com/".data

def loomSharePat : List Char := "loom.com/share/".data

def loomEmbedPat : List Char := "loom.com/embed/".data

/-- When `pat` is a prefix of `cs` and exactly 11 id-characters follow it,
those 11 characters (the `([a-zA-Z0-9_-]\x7b11\x7d)` capture). -/
def idAfter (pat : List Char) (cs : List Char) : Option (List Char) :=
  if pat.isPrefixOf cs then
    let idc := (cs.drop pat.length).take 11
    if idc.length = 11 && idc.all isIdChar then some idc else none
  else none

/-- Leftmost match of the YouTube regex (part_005 line 31): at each start
position try `watch?v=`, `embed/`, then `youtu.be/`, each followed by an
11-character id. -/
def findYoutubeId : List Char → Option (List Char)
  | [] => none
  | c :: rest =>
    match idAfter ytWatchPat (c :: rest) with
    | some v => some v
    | none =>
      match idAfter ytEmbedPat (c :: rest) with
      | some v => some v
      | none =>
        match idAfter ytShortPat (c :: rest) with
        | some v => some v
        | none => findYoutubeId rest

/-- Leftmost match of `vimeo\.com\/(\d+)` (part_005 line 40): a greedy
nonempty digit run after the pattern. -/
def findVimeoId : List Char → Option (List Char)
  | [] => none
  | c :: rest =>
    if vimeoPat.isPrefixOf (c :: rest) then
      let ds := ((c :: rest).drop vimeoPat.length).takeWhile (·.isDigit)
      if ds.isEmpty then findVimeoId rest else some ds
    else findVimeoId rest

/-- Leftmost match of `loom\.com\/(?:share|embed)\/([a-zA-Z0-9]+)`
(part_005 line 49). -/
def findLoomId : List Char → Option (List Char)
  | [] => none
  | c :: rest =>
    if loomSharePat.isPrefixOf (c :: rest) then
      let ds := ((c :: rest).drop loomSharePat.length).takeWhile (·.isAlphanum)
      if ds.isEmpty then findLoomId rest else some ds
    else if loomEmbedPat.isPrefixOf (c :: rest) then
      let ds := ((c :: rest).drop loomEmbedPat.length).takeWhile (·.isAlphanum)
      if ds.isEmpty then findLoomId rest else some ds
    else findLoomId rest

/-- `parseVideoUrl` (part_005 lines 29-58): classify a URL as YouTube,
Vimeo or Loom and build the canonical embed URL; `none` for anything
else. -/
def parseVideoUrl (url : String) : Option (VideoPlatform × String) :=
  match findYoutubeId url.data with
  | some v => some (.youtube, "https://www.youtube.com/embed/" ++ String.mk v)
  | none =>
    match findVimeoId url.data with
    | some v => some (.vimeo, "https://player.vimeo.com/video/" ++ String.mk v)
    | none =>
      match findLoomId url.data with
      | some v => some (.loom, "https://www.loom.com/embed/" ++ String.mk v)
      | none => none

/-- JavaScript `String.prototype.trim` on the editor's URLs (whitespace
modelled by `isWs`). -/
def trimChars (cs : List Char) : List Char :=
  ((cs.dropWhile isWs).reverse.dropWhile isWs).reverse

def jsTrim (s : String) : String := String.mk (trimChars s.data)

/-- What `handleUrlSubmit` leaves behind: the block's content string, its
video metadata, and the inline error message (if any). -/
structure VideoSubmitOutcome where
  content : String
  metadata : VideoMetadata
  error : Option String
deriving DecidableEq

def unsupportedVideoUrlMsg : String := "Unsupported video URL. Try YouTube, Vimeo, or Loom."

/-- `handleUrlSubmit` (part_005 lines 71-84): on a successful parse the
block content becomes the embed URL and the metadata records the pasted URL
and platform; otherwise an error is shown and content/metadata are left
untouched. -/
def handleUrlSubmit (content : String) (metadata : VideoMetadata)
    (urlValue : String) : VideoSubmitOutcome :=
  match parseVideoUrl (jsTrim urlValue) with
  | some (platform, embedUrl) =>
    { content := embedUrl
      metadata := { metadata with url := jsTrim urlValue, platform := some platform }
      error := none }
  | none =>
    { content := content, metadata := metadata, error := some unsupportedVideoUrlMsg }

/-! ### Table column operations (`TableBlock`, CodeBlock.tsx lines 293-318) -/

/-- `metadata.rows[0]?.length || 0`: the column count read off the first
row. -/
def tableColCount (m : TableMetadata) : Nat :=
  match m.rows.head? with
  | some r => r.length
  | none => 0

/-- The insertion index of `addColumn`: after the given column, or at the
end (`rows[0]?.length || 0`) when no index is given. -/
def addColumnInsertAt (m : TableMetadata) (afterIndex : Option Nat) : Nat :=
  match afterIndex with
  | some i => i + 1
  | none => tableColCount m

def newTableCell (content : String) : TableCell :=
  ⟨content, none, none, none, none⟩

/-- JavaScript `Array.prototype.map` with the element index, as in
`metadata.rows.map((row, rIdx) => ...)`. -/
def mapWithIndex (f : Nat → List TableCell → List TableCell) :
    Nat → List (List TableCell) → List (List TableCell)
  | _, [] => []
  | i, r :: rs => f i r :: mapWithIndex f (i + 1) rs

/-- `addColumn` (CodeBlock.tsx lines 293-306): splice one new cell into
every row at the insertion index - `'Header'` in row 0 of a header table,
empty content everywhere else. -/
def addColumn (m : TableMetadata) (afterIndex : Option Nat) : TableMetadata :=
  let insertAt := addColumnInsertAt m afterIndex
  { m with rows := mapWithIndex (fun rIdx row =>
      let newCell := newTableCell
        (if m.hasHeader.getD false && rIdx == 0 then "Header" else "")
      row.take insertAt ++ [newCell] ++ row.drop insertAt) 0 m.rows }

/-- JavaScript `row.filter((_, idx) => idx !== colIndex)`, scanning from
index `i`. -/
def filterIdxNe (col : Nat) : Nat → List TableCell → List TableCell
  | _, [] => []
  | i, c :: row =>
    if i = col then filterIdxNe col (i + 1) row else c :: filterIdxNe col (i + 1) row

/-- `deleteColumn` (CodeBlock.tsx lines 314-318): refuse to delete the last
column; otherwise drop the indexed cell from every row. -/
def deleteColumn (m : TableMetadata) (colIndex : Nat) : TableMetadata :=
  if tableColCount m ≤ 1 then m
  else { m with rows := m.rows.map (fun row => filterIdxNe colIndex 0 row) }

/-! ### Quiz scoring (`QuizBlock`, QuizBlock.tsx lines 143-162) -/

/-- Whether the recorded answer for one question matches its designated
correct answer: for multiple-choice the id of the option flagged
`isCorrect`, for true-false strict equality with `correctAnswer` (both
possibly absent, mirroring `===` on possibly-undefined values). -/
def answerMatches (q : QuizQuestion) (ans : Option String) : Bool :=
  match q.type with
  | .multipleChoice =>
    match (q.options.getD []).find? (·.isCorrect) with
    | some o => ans == some o.id
    | none => false
  | .trueFalse => ans == q.correctAnswer
  | .shortAnswer => false

/-- `getScore` (QuizBlock.tsx lines 143-162): the counter loop over all
questions, and `total` the question count regardless of answers. -/
def getScore (m : QuizMetadata) (userAnswers : String → Option String) : Nat × Nat :=
  (m.questions.foldl
    (fun correct q => if answerMatches q (userAnswers q.id) then correct + 1 else correct) 0,
   m.questions.length)

/-! ### Renderer HTML injection points (BlockRenderer.tsx) -/

/-- The external syntax highlighter (hljs): language lookup and
highlighting, black boxes per the spec's external-interface contract. -/
structure Highlighter where
  getLanguage : String → Bool
  highlight : String → String → String

/-- The markup `CodeRenderer` injects through `dangerouslySetInnerHTML`
(BlockRenderer.tsx lines 227-236 and 264-267): the highlighter's output
when the language is recognized, otherwise the raw content string. -/
def codeRendererHtml (hl : Highlighter) (language : Option String)
    (content : String) : String :=
  let lang := language.getD "plaintext"
  if hl.getLanguage lang then hl.highlight lang content else content

/-- The markup `TextBlockRenderer` injects (BlockRenderer.tsx lines
97-110): nothing for empty content, otherwise `DOMPurify.sanitize` of the
content. -/
def textRendererHtml (sanitize : String → String) (content : String) : Option String :=
  if content = "" then none else some (sanitize content)

/-! ### Claims -/

/-- Claim C1.  Codec round-trip: for every block list `B` (in particular
every well-formed one), decoding the serialized document yields exactly the
runtime JSON objects of `B`'s blocks, field for field and in order.
`List.map blockToJson` is the identity embedding of the typed blocks into
their runtime (JSON object) form, so the equation is the statement
`jsonToBlocks(blocksToJson(B)) == B` of the source's values. -/
theorem C1_codec_roundtrip (fresh : Fresh) (B : List ContentBlock) :
    jsonToBlocks fresh (blocksToJson B) = B.map blockToJson := by
  unfold jsonToBlocks blocksToJson
  rw [parseJson_render (.arr (B.map blockToJson))]

/-- Claim C2.  Corruption fallback: `jsonToBlocks` is total by
construction and, on every input that does not parse to a JSON array -
including the concrete inputs `"not json"`, an object literal, and `""` -
it returns exactly the default document, a single text block with empty
content. -/
theorem C2_corruption_fallback (fresh : Fresh) :
    (∀ s : String, parsesToArray s = false →
       jsonToBlocks fresh s = (getDefaultBlocks fresh).map blockToJson) ∧
    getDefaultBlocks fresh =
      [{ id := fresh.id, type := .text, content := "", metadata := none,
         createdAt := fresh.now, updatedAt := fresh.now }] ∧
    jsonToBlocks fresh "not json" = (getDefaultBlocks fresh).map blockToJson ∧
    jsonToBlocks fresh "\x7b\x7d" = (getDefaultBlocks fresh).map blockToJson ∧
    jsonToBlocks fresh "" = (getDefaultBlocks fresh).map blockToJson := by
  refine ⟨?_, rfl, rfl, rfl, rfl⟩
  intro s h
  unfold jsonToBlocks
  unfold parsesToArray at h
  cases hp : parseJson s with
  | none => rfl
  | some j =>
    rw [hp] at h
    cases j with
    | arr xs => simp at h
    | null => rfl
    | bool b => rfl
    | num n => rfl
    | str t => rfl
    | obj kvs => rfl

def freshC2 : Fresh := ⟨"w2", 0⟩

/-- Witness for C2 at the concrete corrupt input `"not json"`. -/
theorem C2_corruption_fallback_witness :
    jsonToBlocks freshC2 "not json" = (getDefaultBlocks freshC2).map blockToJson :=
  (C2_corruption_fallback freshC2).1 "not json" rfl

/-- Claim C10.  The decoder accepts arbitrary arrays unvalidated: whenever
`JSON.parse` succeeds with an array, `jsonToBlocks` returns exactly that
array's elements - whatever they are - and `jsonToBlocks "[]"` is the
empty zero-block document, not the single-block default. -/
theorem C10_decoder_unvalidated :
    (∀ (fresh : Fresh) (s : String) (xs : List Json),
       parseJson s = some (.arr xs) → jsonToBlocks fresh s = xs) ∧
    (∀ fresh : Fresh, jsonToBlocks fresh "[]" = []) := by
  constructor
  · intro fresh s xs h
    unfold jsonToBlocks
    rw [h]
  · intro fresh
    rfl

def freshC10 : Fresh := ⟨"w10", 0⟩

/-- Witness for C10: `"[0]"` parses to an array whose element is not a
well-formed block, and is returned as-is. -/
theorem C10_decoder_unvalidated_witness :
    jsonToBlocks freshC10 "[0]" = [Json.num 0] :=
  C10_decoder_unvalidated.1 freshC10 "[0]" [Json.num 0] rfl

/-- Claim C3.  Last-block protection: deleting the only block of a
single-block document keeps exactly one block and clears its content; and
on any document with at least one block (with the data model's unique-id
invariant), delete never empties the document. -/
theorem C3_last_block_protection (st : EditorState) (b : ContentBlock) :
    (st.blocks = [b] → (deleteBlock st b.id).blocks = [{ b with content := "" }]) ∧
    (∀ blockId : String, st.blocks ≠ [] →
       (st.blocks.map ContentBlock.id).Nodup → (deleteBlock st blockId).blocks ≠ []) := by
  constructor
  · intro h
    simp [deleteBlock, h]
  · intro bid hne hnd
    by_cases hlen : st.blocks.length ≤ 1
    · have hdb : (deleteBlock st bid).blocks = st.blocks.map (fun b =>
          if b.id == bid then { b with content := "" } else b) := by
        simp [deleteBlock, if_pos hlen]
      rw [hdb]
      intro hc
      exact hne (by simpa using hc)
    · have hdb : (deleteBlock st bid).blocks = st.blocks.filter (fun b => b.id != bid) := by
        simp [deleteBlock, if_neg hlen]
      rw [hdb]
      intro hc
      have hall := List.filter_eq_nil_iff.mp hc
      obtain ⟨x, y, t, hxy⟩ : ∃ x y t, st.blocks = x :: y :: t := by
        cases hb : st.blocks with
        | nil => exact absurd hb hne
        | cons x r =>
          cases hr : r with
          | nil => exact absurd (by rw [hb, hr]; simp) hlen
          | cons y t => exact ⟨x, y, t, by simp [hb, hr]⟩
      have hx : x.id = bid := by simpa using hall x (by rw [hxy]; simp)
      have hy : y.id = bid := by simpa using hall y (by rw [hxy]; simp)
      rw [hxy] at hnd
      simp at hnd
      exact hnd.1.1 (hx.trans hy.symm)

def cexBlockA : ContentBlock := ⟨"a", .text, "hello", none, 0, 0⟩

def cexStateA : EditorState := ⟨[cexBlockA], none, none⟩

/-- Witness for C3 on a concrete one-block document. -/
theorem C3_last_block_protection_witness :
    (deleteBlock cexStateA "a").blocks = [{ cexBlockA with content := "" }] ∧
    (deleteBlock cexStateA "a").blocks ≠ [] :=
  ⟨(C3_last_block_protection cexStateA cexBlockA).1 rfl,
   (C3_last_block_protection cexStateA cexBlockA).2 "a" (by decide) (by decide)⟩

def freshC7 : Fresh := ⟨"n7", 5⟩

def cexState7 : EditorState := ⟨[cexBlockA], none, none⟩

/-- Counterexample to claim C7 as stated: with an anchor id that occurs
nowhere in the list, `addBlockAfter` is not a no-op - `findIndex` returns
`-1` and the splice `slice(0, 0) ++ [newBlock] ++ slice(0)` prepends the
new block to the document. -/
theorem C7_counterexample :
    (addBlockAfter cexState7 "missing" BlockType.text freshC7).blocks ≠ cexState7.blocks ∧
    (addBlockAfter cexState7 "missing" BlockType.text freshC7).blocks =
      [createBlock freshC7 BlockType.text "" none, cexBlockA] := by
  constructor
  · decide
  · rfl

/-- Claim C7 as amended: an unknown anchor id makes `addBlockAfter`
prepend the new default block (list otherwise unchanged); a present anchor
id inserts the new block immediately after the first block with that id,
preserving the relative order of all other blocks; the new block becomes
selected and focused. -/
theorem C7_insert_after_amended (st : EditorState) (anchorId : String)
    (ty : BlockType) (fresh : Fresh) :
    ((∀ b ∈ st.blocks, b.id ≠ anchorId) →
       (addBlockAfter st anchorId ty fresh).blocks =
         createBlock fresh ty "" none :: st.blocks) ∧
    (∀ i : Nat, st.blocks.findIdx? (fun b => b.id == anchorId) = some i →
       (addBlockAfter st anchorId ty fresh).blocks =
         st.blocks.take (i + 1) ++ createBlock fresh ty "" none :: st.blocks.drop (i + 1)) ∧
    (addBlockAfter st anchorId ty fresh).selectedBlockId = some fresh.id ∧
    (addBlockAfter st anchorId ty fresh).focusedBlockId = some fresh.id := by
  refine ⟨?_, ?_, rfl, rfl⟩
  · intro h
    have hf : st.blocks.findIdx? (fun b => b.id == anchorId) = none :=
      List.findIdx?_eq_none_iff.mpr (fun x hx => beq_eq_false_iff_ne.mpr (h x hx))
    simp [addBlockAfter, jsFindIndex, hf]
  · intro i hf
    have ht : ((i : Int) + 1).toNat = i + 1 := by omega
    simp [addBlockAfter, jsFindIndex, hf, ht]

/-- Witness for the amended C7 on a concrete document: prepend on a
missing anchor, insert-after on a present one. -/
theorem C7_insert_after_amended_witness :
    (addBlockAfter cexState7 "zzz" BlockType.text freshC7).blocks =
      createBlock freshC7 BlockType.text "" none :: cexState7.blocks ∧
    (addBlockAfter cexState7 "a" BlockType.text freshC7).blocks =
      cexState7.blocks.take 1 ++
        createBlock freshC7 BlockType.text "" none :: cexState7.blocks.drop 1 :=
  ⟨(C7_insert_after_amended cexState7 "zzz" BlockType.text freshC7).1 (by decide),
   (C7_insert_after_amended cexState7 "a" BlockType.text freshC7).2.1 0 (by decide)⟩

def cexState8 : EditorState := ⟨[cexBlockA], none, none⟩

/-- Counterexample to claim C8 as stated: `convertBlock` stamps
`updatedAt: Date.now()`, so converting the block at a time different from
its stored `updatedAt` does not preserve that timestamp - the result is
not the block with only its `type` changed. -/
theorem C8_counterexample :
    (convertBlock cexState8 "a" BlockType.heading1 1).blocks ≠
      [{ cexBlockA with type := BlockType.heading1 }] := by
  decide

/-- Claim C8 as amended: `convertBlock` changes only the matching block's
`type` field and refreshes its `updatedAt` timestamp, preserving its
`content`, `id`, `createdAt` and `metadata`, and leaves every other block
- and the selection/focus state - unchanged, in place. -/
theorem C8_convert_frame (st : EditorState) (blockId : String)
    (ty : BlockType) (now : Int) :
    (convertBlock st blockId ty now).blocks.length = st.blocks.length ∧
    (∀ (i : Nat) (b : ContentBlock), st.blocks[i]? = some b →
       (b.id ≠ blockId → (convertBlock st blockId ty now).blocks[i]? = some b) ∧
       (b.id = blockId →
          (convertBlock st blockId ty now).blocks[i]? =
            some { b with type := ty, updatedAt := now })) ∧
    (convertBlock st blockId ty now).selectedBlockId = st.selectedBlockId ∧
    (convertBlock st blockId ty now).focusedBlockId = st.focusedBlockId := by
  refine ⟨by simp [convertBlock], ?_, rfl, rfl⟩
  intro i b hb
  constructor
  · intro hne
    simp [convertBlock, List.getElem?_map, hb]
    intro h
    exact absurd h hne
  · intro heq
    simp [convertBlock, List.getElem?_map, hb, heq]

/-- Witness for the amended C8 on a concrete document. -/
theorem C8_convert_frame_witness :
    (convertBlock cexState8 "a" BlockType.quote 7).blocks[0]? =
      some { cexBlockA with type := BlockType.quote, updatedAt := 7 } :=
  ((C8_convert_frame cexState8 "a" BlockType.quote 7).2.1 0 cexBlockA rfl).2 rfl

/-- Claim C4.  Video URL classification: the four concrete URLs classify
to their canonical embed URLs and platforms and update the block; every
URL matching none of the three platform patterns is rejected with the
inline error message, leaving content and metadata unchanged. -/
theorem C4_video_url_classification (content : String) (m : VideoMetadata) :
    handleUrlSubmit content m "https://www.youtube.com/watch?v=dQw4w9WgXcQ" =
      { content := "https://www.youtube.com/embed/dQw4w9WgXcQ"
        metadata := { m with url := "https://www.youtube.com/watch?v=dQw4w9WgXcQ",
                             platform := some .youtube }
        error := none } ∧
    handleUrlSubmit content m "https://youtu.be/dQw4w9WgXcQ" =
      { content := "https://www.youtube.com/embed/dQw4w9WgXcQ"
        metadata := { m with url := "https://youtu.be/dQw4w9WgXcQ",
                             platform := some .youtube }
        error := none } ∧
    handleUrlSubmit content m "https://vimeo.com/76979871" =
      { content := "https://player.vimeo.com/video/76979871"
        metadata := { m with url := "https://vimeo.com/76979871",
                             platform := some .vimeo }
        error := none } ∧
    handleUrlSubmit content m "https://loom.com/share/abc123XYZ" =
      { content := "https://www.loom.com/embed/abc123XYZ"
        metadata := { m with url := "https://loom.com/share/abc123XYZ",
                             platform := some .loom }
        error := none } ∧
    handleUrlSubmit content m "https://example.com/video.mp4" =
      { content := content, metadata := m, error := some unsupportedVideoUrlMsg } ∧
    (∀ url : String, parseVideoUrl (jsTrim url) = none →
       handleUrlSubmit content m url =
         { content := content, metadata := m, error := some unsupportedVideoUrlMsg }) := by
  refine ⟨rfl, rfl, rfl, rfl, rfl, ?_⟩
  intro url h
  simp [handleUrlSubmit, h]

def videoMeta0 : VideoMetadata := ⟨"", none, none, none, none, none⟩

/-- Witness for C4's rejection clause at a concrete unsupported URL. -/
theorem C4_video_url_classification_witness :
    handleUrlSubmit "" videoMeta0 "ftp://nothing" =
      { content := "", metadata := videoMeta0, error := some unsupportedVideoUrlMsg } :=
  (C4_video_url_classification "" videoMeta0).2.2.2.2.2 "ftp://nothing" rfl

theorem getElem?_mapWithIndex (f : Nat → List TableCell → List TableCell) :
    ∀ (l : List (List TableCell)) (j i : Nat),
      (mapWithIndex f j l)[i]? = (l[i]?).map (f (j + i)) := by
  intro l
  induction l with
  | nil => intro j i; simp [mapWithIndex]
  | cons r rs ih =>
    intro j i
    cases i with
    | zero => simp [mapWithIndex]
    | succ i' =>
      simp only [mapWithIndex, List.getElem?_cons_succ]
      rw [ih (j + 1) i']
      have harith : j + 1 + i' = j + (i' + 1) := by omega
      rw [harith]

theorem length_mapWithIndex (f : Nat → List TableCell → List TableCell) :
    ∀ (l : List (List TableCell)) (j : Nat), (mapWithIndex f j l).length = l.length := by
  intro l
  induction l with
  | nil => intro j; rfl
  | cons r rs ih => intro j; simp [mapWithIndex, ih]

theorem filterIdxNe_eq : ∀ (row : List TableCell) (i col : Nat),
    filterIdxNe col i row = if col < i then row else row.eraseIdx (col - i) := by
  intro row
  induction row with
  | nil => intro i col; simp [filterIdxNe]
  | cons c row ih =>
    intro i col
    by_cases hic : i = col
    · subst hic
      have h1 : filterIdxNe i i (c :: row) = filterIdxNe i (i + 1) row := by
        simp [filterIdxNe]
      rw [h1, ih]
      rw [if_pos (by omega), if_neg (by omega), Nat.sub_self]
      rfl
    · have h1 : filterIdxNe col i (c :: row) = c :: filterIdxNe col (i + 1) row := by
        simp [filterIdxNe, hic]
      rw [h1, ih]
      by_cases hlt : col < i
      · rw [if_pos (by omega), if_pos hlt]
      · rw [if_neg (by omega), if_neg hlt]
        have hd : col - i = (col - (i + 1)) + 1 := by omega
        rw [hd, List.eraseIdx_cons_succ]

theorem take_min_self (l : List TableCell) (n : Nat) :
    l.take (min n l.length) = l.take n := by
  rcases le_total n l.length with h | h
  · rw [min_eq_left h]
  · rw [min_eq_right h, List.take_length, List.take_of_length_le h]

theorem drop_min_self (l : List TableCell) (n : Nat) :
    l.drop (min n l.length) = l.drop n := by
  rcases le_total n l.length with h | h
  · rw [min_eq_left h]
  · rw [min_eq_right h, List.drop_length, List.drop_of_length_le h]

/-- Claim C5.  Table rectangularity: on an `n`-column rectangular table
(`n ≥ 1`), `addColumn` makes every row `n + 1` cells long, inserting into
each row exactly one new cell whose content is `'Header'` in row 0 of a
header table and empty otherwise; `deleteColumn` of a valid column with
`n ≥ 2` removes exactly the indexed cell from every row (all other cell
contents unchanged), leaving `n - 1` cells per row; and `deleteColumn`
with `n = 1` is a no-op. -/
theorem C5_table_rectangularity (m : TableMetadata) (n : Nat)
    (afterIndex : Option Nat) (col : Nat)
    (hrect : ∀ r ∈ m.rows, r.length = n) (hn : 1 ≤ n) :
    (∀ r ∈ (addColumn m afterIndex).rows, r.length = n + 1) ∧
    (∀ (i : Nat) (row : List TableCell), m.rows[i]? = some row →
       ∃ k ≤ row.length,
         (addColumn m afterIndex).rows[i]? =
           some (row.take k ++
             [newTableCell (if m.hasHeader.getD false && i == 0 then "Header" else "")] ++
             row.drop k)) ∧
    (2 ≤ n → col < n →
       (deleteColumn m col).rows = m.rows.map (fun row => row.eraseIdx col) ∧
       ∀ r ∈ (deleteColumn m col).rows, r.length = n - 1) ∧
    (n = 1 → deleteColumn m col = m) := by
  have hrows : (addColumn m afterIndex).rows =
      mapWithIndex (fun rIdx row =>
        row.take (addColumnInsertAt m afterIndex) ++
        [newTableCell (if m.hasHeader.getD false && rIdx == 0 then "Header" else "")] ++
        row.drop (addColumnInsertAt m afterIndex)) 0 m.rows := by
    simp [addColumn]
  refine ⟨?_, ?_, ?_, ?_⟩
  · intro r hr
    obtain ⟨i, hi⟩ := List.mem_iff_getElem?.mp hr
    rw [hrows, getElem?_mapWithIndex] at hi
    obtain ⟨row, hrow, hfr⟩ := Option.map_eq_some'.mp hi
    have hlen : row.length = n := hrect row (List.mem_iff_getElem?.mpr ⟨i, hrow⟩)
    rw [← hfr]
    simp [List.length_take, List.length_drop, hlen]
    omega
  · intro i row hrow
    refine ⟨min (addColumnInsertAt m afterIndex) row.length, Nat.min_le_right _ _, ?_⟩
    rw [hrows, getElem?_mapWithIndex, hrow]
    simp only [Option.map_some', Nat.zero_add]
    rw [take_min_self, drop_min_self]
  · intro h2 hcol
    by_cases hg : tableColCount m ≤ 1
    · have hnil : m.rows = [] := by
        cases hrw : m.rows with
        | nil => rfl
        | cons r0 rs =>
          have hr0 := hrect r0 (by rw [hrw]; simp)
          rw [show tableColCount m = r0.length from by simp [tableColCount, hrw]] at hg
          omega
      have hno : deleteColumn m col = m := by simp [deleteColumn, if_pos hg]
      rw [hno, hnil]
      exact ⟨by simp, by simp⟩
    · have hdel : (deleteColumn m col).rows = m.rows.map (fun row => filterIdxNe col 0 row) := by
        simp [deleteColumn, if_neg hg]
      have hfe : ∀ row : List TableCell, filterIdxNe col 0 row = row.eraseIdx col := by
        intro row
        rw [filterIdxNe_eq]
        simp
      constructor
      · rw [hdel]
        exact List.map_congr_left (fun row _ => hfe row)
      · intro r hr
        rw [hdel] at hr
        obtain ⟨row, hmem, hfr⟩ := List.mem_map.mp hr
        have hlen : row.length = n := hrect row hmem
        rw [← hfr, hfe row, List.length_eraseIdx]
        simp [hlen]
        omega
  · intro h1
    subst h1
    have hg : tableColCount m ≤ 1 := by
      cases hrw : m.rows with
      | nil => simp [tableColCount, hrw]
      | cons r0 rs =>
        have hr0 := hrect r0 (by rw [hrw]; simp)
        simp [tableColCount, hrw, hr0]
    simp [deleteColumn, if_pos hg]

/-- The default 3-by-3 table (`DEFAULT_TABLE` / `getDefaultMetadata`). -/
def tableMeta0 : TableMetadata :=
  ⟨[[⟨"Header 1", none, none, none, none⟩,
     ⟨"Header 2", none, none, none, none⟩,
     ⟨"Header 3", none, none, none, none⟩],
    [⟨"", none, none, none, none⟩, ⟨"", none, none, none, none⟩,
     ⟨"", none, none, none, none⟩],
    [⟨"", none, none, none, none⟩, ⟨"", none, none, none, none⟩,
     ⟨"", none, none, none, none⟩]],
   some true, some true, some .solid⟩

/-- Witness for C5 on the default 3-by-3 table: add a column (4 cells per
row), delete column 2 (exactly that cell removed from every row), and a
1-column table refuses deletion. -/
theorem C5_table_rectangularity_witness :
    (∀ r ∈ (addColumn tableMeta0 none).rows, r.length = 3 + 1) ∧
    (deleteColumn tableMeta0 2).rows =
      tableMeta0.rows.map (fun row => row.eraseIdx 2) ∧
    deleteColumn ⟨[[⟨"only", none, none, none, none⟩]], none, none, none⟩ 0 =
      ⟨[[⟨"only", none, none, none, none⟩]], none, none, none⟩ := by
  have h := C5_table_rectangularity tableMeta0 3 none 2 (by decide) (by decide)
  have h1 := C5_table_rectangularity
    ⟨[[⟨"only", none, none, none, none⟩]], none, none, none⟩ 1 none 0
    (by decide) (by decide)
  exact ⟨h.1, (h.2.2.1 (by decide) (by decide)).1, h1.2.2.2 rfl⟩

theorem foldl_count_filter (p : QuizQuestion → Bool) :
    ∀ (l : List QuizQuestion) (a : Nat),
      l.foldl (fun acc q => if p q then acc + 1 else acc) a = a + (l.filter p).length := by
  intro l
  induction l with
  | nil => intro a; simp
  | cons q l' ih =>
    intro a
    by_cases h : p q
    · simp [List.filter, h, ih]
      omega
    · simp [List.filter, h, ih]

def quizQ1 : QuizQuestion :=
  ⟨"q1", "first", .multipleChoice,
   some [⟨"o11", "A", true⟩, ⟨"o12", "B", false⟩], none, none, some 1⟩

def quizQ2 : QuizQuestion :=
  ⟨"q2", "second", .multipleChoice,
   some [⟨"o21", "A", false⟩, ⟨"o22", "B", true⟩], none, none, some 1⟩

/-- A quiz of two multiple-choice questions, one correct option each. -/
def quizTwoMC : QuizMetadata := ⟨[quizQ1, quizQ2], some false, some false⟩

/-- Both questions answered with their correct options. -/
def answersBothCorrect : String → Option String := fun qid =>
  if qid = "q1" then some "o11" else if qid = "q2" then some "o22" else none

/-- Only the first question answered (correctly); the second unanswered. -/
def answersOneCorrect : String → Option String := fun qid =>
  if qid = "q1" then some "o11" else none

/-- Claim C6.  Quiz scoring: the score is `(correct, total)` where `total`
is the question count regardless of how many were answered, and `correct`
counts exactly the questions whose recorded answer matches the designated
correct answer (`answerMatches`: the `isCorrect` option's id for
multiple-choice, string equality with `correctAnswer` for true-false).  On
the two-question multiple-choice quiz: both answered correctly scores
`(2, 2)`; one correct and one unanswered scores `(1, 2)`. -/
theorem C6_quiz_scoring (m : QuizMetadata) (ans : String → Option String) :
    (getScore m ans).2 = m.questions.length ∧
    (getScore m ans).1 =
      (m.questions.filter (fun q => answerMatches q (ans q.id))).length ∧
    getScore quizTwoMC answersBothCorrect = (2, 2) ∧
    getScore quizTwoMC answersOneCorrect = (1, 2) := by
  refine ⟨rfl, ?_, rfl, rfl⟩
  have h := foldl_count_filter (fun q => answerMatches q (ans q.id)) m.questions 0
  simpa [getScore] using h

/-- A model highlighter that recognizes no language at all, the hljs
behavior on a language tag outside its registry. -/
def hlUnknown : Highlighter := ⟨fun _ => false, fun _ c => c⟩

def xssContent : String := "<img src=x onerror=alert(1)>"

/-- Claim C9, evaluated at the failing input: a persisted code block whose
`language` is not recognized by the highlighter has its raw content string
injected as markup by `CodeRenderer` - not the sanitizer's output - while
`TextBlockRenderer` only ever injects `DOMPurify.sanitize` of its content
(or nothing). -/
theorem C9_code_renderer_raw_injection :
    codeRendererHtml hlUnknown (some "bogus") xssContent = xssContent ∧
    (∀ (sanitize : String → String) (content : String),
       textRendererHtml sanitize content = none ∨
       textRendererHtml sanitize content = some (sanitize content)) := by
  refine ⟨rfl, ?_⟩
  intro san c
  by_cases h : c = "" <;> simp [textRendererHtml, h]
